import Mathlib

/-!
Verification of the D&D 5e spell scraper (`main.py`) against its
natural-language specification.

The source is shallowly embedded: lines of text are `List Char`, every
Python string primitive used by the scraper (`strip`, `split`,
`capitalize`, `title`, `lower`, substring membership) is given an
executable Lean counterpart, and fallible code (Python code that can
raise `IndexError`, network failures, missing markup regions) is
modelled with `Option`.  Python `str` values are written as Lean string
literals converted to `List Char` with `.data`.
-/

/-! ## Python string primitives -/

/-- The ASCII whitespace characters recognised by Python `str.strip()` /
`str.split()`. -/
def isPySpace (c : Char) : Bool :=
  c = ' ' || c = '\t' || c = '\n' || c = '\r' || c = '\x0b' || c = '\x0c'

/-- Python `str.strip()`: remove leading and trailing whitespace. -/
def pyStrip (l : List Char) : List Char :=
  ((l.dropWhile isPySpace).reverse.dropWhile isPySpace).reverse

/-- Python `str.lower()` (ASCII). -/
def pyLower (l : List Char) : List Char :=
  l.map Char.toLower

/-- Python `str.capitalize()`: first character uppercased, the rest
lowercased. -/
def pyCapitalize : List Char → List Char
  | [] => []
  | c :: cs => Char.toUpper c :: cs.map Char.toLower

/-- Helper for `pyTitle`: the boolean argument records whether the
previous character was alphabetic. -/
def pyTitleGo : Bool → List Char → List Char
  | _, [] => []
  | prevAlpha, c :: cs =>
    (if prevAlpha then Char.toLower c else Char.toUpper c) :: pyTitleGo c.isAlpha cs

/-- Python `str.title()` (ASCII): each letter that follows a non-letter is
uppercased, every other letter is lowercased. -/
def pyTitle (l : List Char) : List Char :=
  pyTitleGo false l

/-- Python `str.split(sep)` for a one-character separator `sep`: all
segments, empty segments kept; splitting the empty string yields one
empty segment. -/
def pySplitChar (sep : Char) : List Char → List (List Char)
  | [] => [[]]
  | c :: cs =>
    if c = sep then [] :: pySplitChar sep cs
    else
      match pySplitChar sep cs with
      | [] => [[c]]
      | p :: ps => (c :: p) :: ps

/-- Python substring membership `sep in l`. -/
def containsSub (sep : List Char) : List Char → Bool
  | [] => sep.isEmpty
  | c :: cs => sep.isPrefixOf (c :: cs) || containsSub sep cs

/-- Fueled worker for `pySplitStr`; the fuel is an upper bound on the
length of the list being split, so the out-of-fuel clause is never
reached from `pySplitStr`. -/
def pySplitStrGo (sep : List Char) : Nat → List Char → List (List Char)
  | _, [] => [[]]
  | 0, l => [l]
  | fuel + 1, c :: cs =>
    if sep ≠ [] ∧ sep.isPrefixOf (c :: cs) then
      [] :: pySplitStrGo sep fuel ((c :: cs).drop sep.length)
    else
      match pySplitStrGo sep fuel cs with
      | [] => [[c]]
      | p :: ps => (c :: p) :: ps

/-- Python `str.split(sep)` for a multi-character separator `sep`. -/
def pySplitStr (sep l : List Char) : List (List Char) :=
  pySplitStrGo sep l.length l

/-- Python `line.split()[0]` (whitespace split, first token), `none` when
`split()` returns the empty list and indexing raises `IndexError`. -/
def wsFirstToken (l : List Char) : Option (List Char) :=
  match l.dropWhile isPySpace with
  | [] => none
  | c :: cs => some ((c :: cs).takeWhile (fun x => !isPySpace x))

/-! ## The line classifier (`DnDSpellScraper._format`) -/

/-- The module-level `SPELL_SCHOOLS` list of `main.py`. -/
def SPELL_SCHOOLS : List (List Char) :=
  ["Abjuration".data, "Conjuration".data, "Divination".data, "Enchantment".data,
   "Evocation".data, "Illusion".data, "Necromancy".data, "Transmutation".data]

/-- The school test `any([x.lower() in line.lower() for x in SPELL_SCHOOLS])`. -/
def containsSchool (line : List Char) : Bool :=
  SPELL_SCHOOLS.any fun x => containsSub (pyLower x) (pyLower line)

/-- The classifier `DnDSpellScraper._format`, line for line.  A result of `none` models
the `IndexError` that Python raises when an indexed split segment does
not exist. -/
def pyFormat (line : List Char) : Option (List Char) :=
  if "Source".data.isPrefixOf line then
    match (pySplitChar ':' line)[1]? with
    | none => none
    | some t => some ("**Source:** ".data ++ pyStrip t ++ "\n\n".data)
  else if containsSchool line then
    if containsSub "level".data line then
      match (pySplitChar ' ' line)[0]?, (pySplitChar ' ' line)[1]? with
      | some t0, some t1 =>
          some ("**Type:** Spell\n**Level:** ".data ++ pyStrip t0 ++
                "\n**School:** ".data ++ pyCapitalize (pyStrip t1) ++ "\n\n".data)
      | _, _ => none
    else
      match wsFirstToken line with
      | none => none
      | some t => some ("**Type:** Cantrip\n**School:** ".data ++
                        pyCapitalize (pyStrip t) ++ "\n\n".data)
  else if "Casting Time".data.isPrefixOf line then
    match (pySplitChar ':' line)[1]? with
    | none => none
    | some t => some ("**Casting Time:** ".data ++ pyStrip t ++ "\n".data)
  else if "Range".data.isPrefixOf line then
    match (pySplitChar ':' line)[1]? with
    | none => none
    | some t => some ("**Range:** ".data ++ pyStrip t ++ "\n".data)
  else if "Components".data.isPrefixOf line then
    match (pySplitChar ':' line)[1]? with
    | none => none
    | some t => some ("**Components:** ".data ++ pyStrip t ++ "\n".data)
  else if "Duration".data.isPrefixOf line then
    match (pySplitChar ':' line)[1]? with
    | none => none
    | some t => some ("**Duration:** ".data ++ pyStrip t ++ "\n\n".data)
  else if containsSub "At Higher Levels".data line then
    match (pySplitStr "At Higher Levels.".data line)[1]? with
    | none => none
    | some t => some ("\n**At Higher Levels:** ".data ++ pyStrip t ++ "\n".data)
  else if containsSub "Spell Lists".data line then
    match (pySplitStr "Spell Lists.".data line)[1]? with
    | none => none
    | some t => some ("\n**Spell Lists:** ".data ++ pyStrip t ++ "\n".data)
  else
    some (line ++ "\n\n".data)

/-! ## The content normalizer (`DnDSpellScraper._clean_content`) -/

/-- The loop of `_clean_content`: strip each line, drop empty lines, and
format the rest; `none` if formatting any line raises. -/
def cleanedLines : List (List Char) → Option (List (List Char))
  | [] => some []
  | l :: ls =>
    let s := pyStrip l
    if s = [] then cleanedLines ls
    else
      match pyFormat s with
      | none => none
      | some f => (cleanedLines ls).map (f :: ·)

/-- The replacement emitted for a pending run of `n` newlines by the
`re.sub(r"\n\x7b3,\x7d", "\n\n", content)` step: runs of three or more
newlines become two. -/
def emitRun (n : Nat) : List Char :=
  if 3 ≤ n then ['\n', '\n'] else List.replicate n '\n'

/-- Worker for `collapseNewlines`: `n` counts the newlines read but not
yet emitted. -/
def collapseGo : Nat → List Char → List Char
  | n, [] => emitRun n
  | n, c :: cs =>
    if c = '\n' then collapseGo (n + 1) cs
    else emitRun n ++ c :: collapseGo 0 cs

/-- The step `re.sub(r"\n\x7b3,\x7d", "\n\n", content)`: every maximal run of three
or more newline characters is replaced by exactly two. -/
def collapseNewlines (l : List Char) : List Char :=
  collapseGo 0 l

/-- The normalizer `DnDSpellScraper._clean_content` from the extracted text onwards:
split on newlines, strip/filter/format each line, join the fragments and
collapse newline runs.  `none` models the `IndexError` a line can make
`_format` raise (caught further up in `scrape_spell`). -/
def cleanContent (raw : List Char) : Option (List Char) :=
  (cleanedLines (pySplitChar '\n' raw)).map fun fs => collapseNewlines fs.flatten

/-- Whether the list contains three consecutive newline characters. -/
def hasTripleNewline : List Char → Bool
  | a :: b :: c :: rest =>
    (a == '\n' && (b == '\n' && c == '\n')) || hasTripleNewline (b :: c :: rest)
  | _ => false

/-! ## The record extractor (`DnDSpellScraper.scrape_spell`) -/

/-- The pieces of a fetched page that `scrape_spell` inspects:
`titleText` is the stripped text of the `page-title page-header` element
when that element is present, `contentText` is the plain text of the
`page-content` element (scripts and styles removed) when that element is
present. -/
structure Page where
  titleText : Option (List Char)
  contentText : Option (List Char)
deriving DecidableEq

/-- Outcome of `self.session.get(url)`: a `requests.RequestException`, or
a parsed page. -/
inductive FetchResult where
  | failure
  | success (page : Page)
deriving DecidableEq

/-- The dictionary returned by a successful `scrape_spell`. -/
structure Record where
  title : List Char
  content : List Char
  url : List Char
deriving DecidableEq

/-- The url `f"\x7bself.base_url\x7d/spell:\x7bspell_name\x7d"`. -/
def spellUrl (baseUrl name : List Char) : List Char :=
  baseUrl ++ "/spell:".data ++ name

/-- The fallback `spell_name.replace("-", " ").title()` title used when
the page has no title element. -/
def derivedTitle (name : List Char) : List Char :=
  pyTitle (name.map fun c => if c = '-' then ' ' else c)

/-- The extractor `DnDSpellScraper.scrape_spell`; `none` models every way the function
returns `None` (network failure, missing content element, unexpected
exception while cleaning). -/
def scrapeSpell (fetch : List Char → FetchResult) (baseUrl name : List Char) :
    Option Record :=
  match fetch name with
  | .failure => none
  | .success page =>
    let title :=
      match page.titleText with
      | none => derivedTitle name
      | some t => t
    match page.contentText with
    | none => none
    | some raw =>
      match cleanContent raw with
      | none => none
      | some content => some ⟨title, content, spellUrl baseUrl name⟩

/-! ## The orchestrator (`DnDSpellScraper.scrape_spells`) -/

/-- Externally observable steps of the `scrape_spells` loop. -/
inductive Event where
  | fetchItem (name : List Char)
  | save (name : List Char)
  | sleep
deriving DecidableEq

/-- The body of the `for i, spell_name in enumerate(spell_names)` loop:
`total` is `len(spell_names)` and `i` the current index; the loop sleeps
after an item exactly when `i < total - 1`. -/
def scrapeSpellsGo (fetch : List Char → FetchResult) (baseUrl : List Char)
    (total : Nat) : Nat → List (List Char) → List Record × List Event
  | _, [] => ([], [])
  | i, name :: rest =>
    let spellData := scrapeSpell fetch baseUrl name
    let recsHere : List Record :=
      match spellData with
      | some r => [r]
      | none => []
    let saveEvs : List Event :=
      match spellData with
      | some _ => [Event.save name]
      | none => []
    let sleepEvs : List Event := if i < total - 1 then [Event.sleep] else []
    let next := scrapeSpellsGo fetch baseUrl total (i + 1) rest
    (recsHere ++ next.1, Event.fetchItem name :: saveEvs ++ sleepEvs ++ next.2)

/-- The orchestrator `DnDSpellScraper.scrape_spells`: returns the list of successfully
scraped records together with the trace of observable events. -/
def scrapeSpells (fetch : List Char → FetchResult) (baseUrl : List Char)
    (names : List (List Char)) : List Record × List Event :=
  scrapeSpellsGo fetch baseUrl names.length 0 names

/-- The events contributed by one item: a fetch, then a save when the
item succeeded. -/
def itemTrace (fetch : List Char → FetchResult) (baseUrl name : List Char) :
    List Event :=
  Event.fetchItem name ::
    (match scrapeSpell fetch baseUrl name with
     | some _ => [Event.save name]
     | none => [])

/-- The trace shape stated by the spec: per-item event blocks separated
by single pauses, never a pause after the last item. -/
def pacedTrace (fetch : List Char → FetchResult) (baseUrl : List Char)
    (names : List (List Char)) : List Event :=
  (List.intersperse [Event.sleep] (names.map (itemTrace fetch baseUrl))).flatten

/-! ## The command-line entry point (`if __name__ == "__main__"`) -/

/-- Observable steps of the `__main__` block. -/
inductive CliStep where
  | printUsage
  | runMain (args : List (List Char))
deriving DecidableEq

/-- The `__main__` block of `main.py`: `argv` includes the program name.
The usage message is printed when there are zero or more than one
positional arguments, and `main(sys.argv[1:])` is called afterwards in
every case (there is no early exit). -/
def cliMain (argv : List (List Char)) : List CliStep :=
  (if argv.length = 1 ∨ 2 < argv.length then [CliStep.printUsage] else []) ++
    [CliStep.runMain (argv.drop 1)]

/-! ## Helper lemmas: splitting on a character -/

theorem pySplitChar_ne_nil (sep : Char) (l : List Char) :
    pySplitChar sep l ≠ [] := by
  induction l with
  | nil => simp [pySplitChar]
  | cons c cs ih =>
    by_cases hc : c = sep
    · simp [pySplitChar, hc]
    · cases h : pySplitChar sep cs with
      | nil => exact absurd h ih
      | cons p ps => simp [pySplitChar, hc, h]

theorem pySplitChar_head (sep : Char) (l : List Char) :
    ∃ ps, pySplitChar sep l = l.takeWhile (fun c => !(c == sep)) :: ps := by
  induction l with
  | nil => exact ⟨[], rfl⟩
  | cons c cs ih =>
    by_cases hc : c = sep
    · refine ⟨pySplitChar sep cs, ?_⟩
      simp [pySplitChar, hc, List.takeWhile_cons]
    · obtain ⟨ps, hps⟩ := ih
      refine ⟨ps, ?_⟩
      have hb : (c == sep) = false := by simp [hc]
      simp [pySplitChar, hc, hps, List.takeWhile_cons, hb]

theorem pySplitChar_append_cons (sep : Char) (pre rest : List Char)
    (h : sep ∉ pre) :
    pySplitChar sep (pre ++ sep :: rest) = pre :: pySplitChar sep rest := by
  induction pre with
  | nil => simp [pySplitChar]
  | cons a pre' ih =>
    have ha : a ≠ sep := fun e => h (e ▸ List.mem_cons_self a pre')
    have h' : sep ∉ pre' := fun e => h (List.mem_cons_of_mem a e)
    simp only [List.cons_append, pySplitChar, if_neg ha, List.append_eq, ih h']

theorem pySplitChar_getElem_one (sep : Char) (pre rest : List Char)
    (h : sep ∉ pre) :
    (pySplitChar sep (pre ++ sep :: rest))[1]? =
      some (rest.takeWhile (fun c => !(c == sep))) := by
  rw [pySplitChar_append_cons sep pre rest h]
  obtain ⟨ps, hps⟩ := pySplitChar_head sep rest
  simp [hps]

theorem pySplitChar_getElem_one_isNone (sep : Char) (l : List Char) :
    ((pySplitChar sep l)[1]?).isNone = !(l.contains sep) := by
  induction l with
  | nil => simp [pySplitChar, List.contains]
  | cons c cs ih =>
    have hcont : List.contains (c :: cs) sep = ((sep == c) || List.contains cs sep) := by
      show List.elem sep (c :: cs) = _
      rw [List.elem_cons]
      cases h : sep == c <;> rfl
    by_cases hc : c = sep
    · have hb : (sep == c) = true := by simp [hc]
      obtain ⟨ps, hps⟩ := pySplitChar_head sep cs
      simp [pySplitChar, hc, hps, hcont, hb]
    · have hb : (sep == c) = false := by
        simp only [beq_eq_false_iff_ne]
        exact fun e => hc e.symm
      cases h : pySplitChar sep cs with
      | nil => exact absurd h (pySplitChar_ne_nil sep cs)
      | cons p ps =>
        have h2 : ((pySplitChar sep (c :: cs))[1]?).isNone
            = ((pySplitChar sep cs)[1]?).isNone := by
          simp [pySplitChar, hc, h]
        rw [h2, ih, hcont, hb, Bool.false_or]

/-! ## Helper lemmas: prefixes and substring membership -/

theorem head_of_isPrefixOf {a : Char} {p l : List Char}
    (h : (a :: p).isPrefixOf l = true) : ∃ t, l = a :: t := by
  cases l with
  | nil => simp [List.isPrefixOf] at h
  | cons b bs =>
    simp only [List.isPrefixOf, Bool.and_eq_true] at h
    exact ⟨bs, by rw [eq_of_beq h.1]⟩

theorem head2_of_isPrefixOf {a b : Char} {p l : List Char}
    (h : (a :: b :: p).isPrefixOf l = true) : ∃ t, l = a :: b :: t := by
  cases l with
  | nil => simp [List.isPrefixOf] at h
  | cons x xs =>
    simp only [List.isPrefixOf, Bool.and_eq_true] at h
    obtain ⟨t, ht⟩ := head_of_isPrefixOf h.2
    exact ⟨t, by rw [eq_of_beq h.1, ht]⟩

theorem isPrefixOf_false_of_head_ne {a b : Char} (p t : List Char)
    (h : a ≠ b) : (a :: p).isPrefixOf (b :: t) = false := by
  have hb : (a == b) = false := by
    simp only [beq_eq_false_iff_ne]
    exact h
  simp [List.isPrefixOf, hb]

theorem containsSub_of_isPrefixOf {sep l : List Char}
    (h : sep.isPrefixOf l = true) : containsSub sep l = true := by
  cases l with
  | nil =>
    cases sep with
    | nil => rfl
    | cons a as => simp [List.isPrefixOf] at h
  | cons c cs => simp [containsSub, h]

theorem mem_of_mem_of_isPrefixOf {sep l : List Char} {c : Char}
    (h : sep.isPrefixOf l = true) (hm : c ∈ sep) : c ∈ l := by
  induction sep generalizing l with
  | nil => cases hm
  | cons a as ih =>
    cases l with
    | nil => simp [List.isPrefixOf] at h
    | cons b bs =>
      simp only [List.isPrefixOf, Bool.and_eq_true] at h
      rcases List.mem_cons.mp hm with he | hm'
      · rw [he, eq_of_beq h.1]
        exact List.mem_cons_self b bs
      · exact List.mem_cons_of_mem b (ih h.2 hm')

theorem mem_of_mem_containsSub {sep l : List Char} {c : Char}
    (h : containsSub sep l = true) (hm : c ∈ sep) : c ∈ l := by
  induction l with
  | nil =>
    cases sep with
    | nil => cases hm
    | cons a as => simp [containsSub, List.isEmpty] at h
  | cons b bs ih =>
    simp only [containsSub, Bool.or_eq_true] at h
    rcases h with h | h
    · exact mem_of_mem_of_isPrefixOf h hm
    · exact List.mem_cons_of_mem b (ih h)

/-! ## Helper lemmas: splitting on a substring -/

theorem pySplitStrGo_ne_nil (sep : List Char) (fuel : Nat) (l : List Char) :
    pySplitStrGo sep fuel l ≠ [] := by
  induction fuel generalizing l with
  | zero => cases l <;> simp [pySplitStrGo]
  | succ n ih =>
    cases l with
    | nil => simp [pySplitStrGo]
    | cons c cs =>
      by_cases h : sep ≠ [] ∧ sep.isPrefixOf (c :: cs)
      · simp [pySplitStrGo, h]
      · cases hr : pySplitStrGo sep n cs with
        | nil => exact absurd hr (ih cs)
        | cons p ps =>
          simp only [pySplitStrGo, if_neg h, hr]
          simp

theorem pySplitStrGo_getElem_one_isNone (sep : List Char) (hs : sep ≠ []) :
    ∀ fuel l, l.length ≤ fuel →
      ((pySplitStrGo sep fuel l)[1]?).isNone = !(containsSub sep l) := by
  intro fuel
  induction fuel with
  | zero =>
    intro l hl
    have hnil : l = [] := List.length_eq_zero.mp (Nat.le_zero.mp hl)
    subst hnil
    cases sep with
    | nil => exact absurd rfl hs
    | cons a as => simp [pySplitStrGo, containsSub, List.isEmpty]
  | succ n ih =>
    intro l hl
    cases l with
    | nil =>
      cases sep with
      | nil => exact absurd rfl hs
      | cons a as => simp [pySplitStrGo, containsSub, List.isEmpty]
    | cons c cs =>
      by_cases hp : sep.isPrefixOf (c :: cs) = true
      · have hcond : sep ≠ [] ∧ sep.isPrefixOf (c :: cs) := ⟨hs, hp⟩
        cases hr : pySplitStrGo sep n ((c :: cs).drop sep.length) with
        | nil => exact absurd hr (pySplitStrGo_ne_nil sep n _)
        | cons p ps =>
          have hc2 : containsSub sep (c :: cs) = true := by simp [containsSub, hp]
          simp [pySplitStrGo, hcond, hr, hc2]
      · have hcond : ¬(sep ≠ [] ∧ sep.isPrefixOf (c :: cs)) := fun hh => hp hh.2
        cases hr : pySplitStrGo sep n cs with
        | nil => exact absurd hr (pySplitStrGo_ne_nil sep n cs)
        | cons p ps =>
          have h2 : ((pySplitStrGo sep (n + 1) (c :: cs))[1]?).isNone
              = ((pySplitStrGo sep n cs)[1]?).isNone := by
            simp only [pySplitStrGo, if_neg hcond, hr]
            simp
          have hlen : cs.length ≤ n := by
            simpa using Nat.lt_succ_iff.mp (Nat.lt_of_lt_of_le (Nat.lt_succ_self _) (by simpa using hl))
          have hb : sep.isPrefixOf (c :: cs) = false := by
            cases hq : sep.isPrefixOf (c :: cs)
            · rfl
            · exact absurd hq hp
          rw [h2, ih cs hlen]
          simp [containsSub, hb]

theorem pySplitStr_getElem_one_isNone (sep l : List Char) (hs : sep ≠ []) :
    ((pySplitStr sep l)[1]?).isNone = !(containsSub sep l) :=
  pySplitStrGo_getElem_one_isNone sep hs l.length l (Nat.le_refl _)

/-! ## Helper lemmas: whitespace and school names -/

theorem toLower_eq_self_of_space {c : Char} (h : isPySpace c = true) :
    Char.toLower c = c := by
  unfold isPySpace at h
  simp only [Bool.or_eq_true, decide_eq_true_eq] at h
  rcases h with ((((h | h) | h) | h) | h) | h <;> subst h <;> decide

theorem school_has_nonspace {l : List Char} (h : containsSchool l = true) :
    ∃ c ∈ l, isPySpace c = false := by
  unfold containsSchool at h
  rw [List.any_eq_true] at h
  obtain ⟨x, hx, hsub⟩ := h
  have hn : 'n' ∈ pyLower x := by
    simp only [SPELL_SCHOOLS, List.mem_cons, List.not_mem_nil, or_false] at hx
    rcases hx with h | h | h | h | h | h | h | h <;> subst h <;> decide
  have hmem : 'n' ∈ pyLower l := mem_of_mem_containsSub hsub hn
  rw [pyLower, List.mem_map] at hmem
  obtain ⟨c, hc, he⟩ := hmem
  refine ⟨c, hc, ?_⟩
  cases hq : isPySpace c with
  | false => rfl
  | true =>
    rw [toLower_eq_self_of_space hq] at he
    subst he
    exact absurd hq (by decide)

theorem wsFirstToken_of_school {l : List Char} (h : containsSchool l = true) :
    ∃ t, wsFirstToken l = some t := by
  obtain ⟨c, hc, hsp⟩ := school_has_nonspace h
  unfold wsFirstToken
  cases hd : l.dropWhile isPySpace with
  | nil =>
    have hall := List.dropWhile_eq_nil_iff.mp hd
    rw [hall c hc] at hsp
    cases hsp
  | cons a as => exact ⟨_, rfl⟩

/-! ## Helper lemmas: collapsing newline runs -/

theorem emitRun_cases (n : Nat) :
    emitRun n = [] ∨ emitRun n = ['\n'] ∨ emitRun n = ['\n', '\n'] := by
  unfold emitRun
  by_cases h : 3 ≤ n
  · simp [h]
  · interval_cases n <;> simp

theorem hasTripleNewline_cons_of_ne {a : Char} (t : List Char)
    (h : (a == '\n') = false) : hasTripleNewline (a :: t) = hasTripleNewline t := by
  match t with
  | [] => rfl
  | [b] => rfl
  | b :: c :: r => simp [hasTripleNewline, h]

theorem hasTripleNewline_cons_cons_of_ne {a : Char} (b : Char) (t : List Char)
    (h : (b == '\n') = false) :
    hasTripleNewline (a :: b :: t) = hasTripleNewline (b :: t) := by
  match t with
  | [] => rfl
  | c :: r => simp [hasTripleNewline, h]

theorem hasTripleNewline_tail {a : Char} {t : List Char}
    (h : hasTripleNewline (a :: t) = false) : hasTripleNewline t = false := by
  match t with
  | [] => rfl
  | [b] => rfl
  | b :: c :: r =>
    simp only [hasTripleNewline, Bool.or_eq_false_iff] at h
    exact h.2

theorem hasTripleNewline_emitRun_append (n : Nat) {c : Char} (t : List Char)
    (hc : (c == '\n') = false) :
    hasTripleNewline (emitRun n ++ c :: t) = hasTripleNewline (c :: t) := by
  rcases emitRun_cases n with h | h | h <;> rw [h]
  · rfl
  · exact hasTripleNewline_cons_cons_of_ne c t hc
  · rw [List.cons_append, List.cons_append, List.nil_append]
    have h1 : hasTripleNewline ('\n' :: '\n' :: c :: t)
        = hasTripleNewline ('\n' :: c :: t) := by
      simp [hasTripleNewline, hc]
    rw [h1]
    exact hasTripleNewline_cons_cons_of_ne c t hc

theorem hasTripleNewline_emitRun (n : Nat) :
    hasTripleNewline (emitRun n) = false := by
  rcases emitRun_cases n with h | h | h <;> rw [h] <;> rfl

theorem collapseGo_no_triple (l : List Char) :
    ∀ n, hasTripleNewline (collapseGo n l) = false := by
  induction l with
  | nil => intro n; rw [collapseGo]; exact hasTripleNewline_emitRun n
  | cons c cs ih =>
    intro n
    by_cases hc : c = '\n'
    · rw [collapseGo, if_pos hc]
      exact ih (n + 1)
    · have hb : (c == '\n') = false := by
        simp only [beq_eq_false_iff_ne]
        exact hc
      rw [collapseGo, if_neg hc, hasTripleNewline_emitRun_append n _ hb,
        hasTripleNewline_cons_of_ne _ hb]
      exact ih 0

theorem collapseNewlines_no_triple (l : List Char) :
    hasTripleNewline (collapseNewlines l) = false :=
  collapseGo_no_triple l 0

theorem collapseGo_eq_self_of_no_triple (l : List Char) :
    (hasTripleNewline l = false → collapseGo 0 l = l) ∧
    (hasTripleNewline ('\n' :: l) = false → collapseGo 1 l = '\n' :: l) ∧
    (hasTripleNewline ('\n' :: '\n' :: l) = false → collapseGo 2 l = '\n' :: '\n' :: l) := by
  induction l with
  | nil => exact ⟨fun _ => by decide, fun _ => by decide, fun _ => by decide⟩
  | cons c cs ih =>
    obtain ⟨ih0, ih1, ih2⟩ := ih
    by_cases hc : c = '\n'
    · subst hc
      refine ⟨?_, ?_, ?_⟩
      · intro h
        rw [collapseGo, if_pos rfl]
        exact ih1 h
      · intro h
        rw [collapseGo, if_pos rfl]
        exact ih2 h
      · intro h
        exfalso
        simp [hasTripleNewline] at h
    · have hb : (c == '\n') = false := by
        simp only [beq_eq_false_iff_ne]
        exact hc
      have e0 : emitRun 0 = [] := by decide
      have e1 : emitRun 1 = ['\n'] := by decide
      have e2 : emitRun 2 = ['\n', '\n'] := by decide
      refine ⟨?_, ?_, ?_⟩
      · intro h
        rw [hasTripleNewline_cons_of_ne cs hb] at h
        rw [collapseGo, if_neg hc, ih0 h, e0, List.nil_append]
      · intro h
        rw [hasTripleNewline_cons_cons_of_ne c cs hb,
          hasTripleNewline_cons_of_ne cs hb] at h
        rw [collapseGo, if_neg hc, ih0 h, e1]
        rfl
      · intro h
        have h' : hasTripleNewline ('\n' :: c :: cs) = false := by
          simp only [hasTripleNewline, Bool.or_eq_false_iff] at h
          exact h.2
        rw [hasTripleNewline_cons_cons_of_ne c cs hb,
          hasTripleNewline_cons_of_ne cs hb] at h'
        rw [collapseGo, if_neg hc, ih0 h', e2]
        rfl

theorem collapseNewlines_eq_self_of_no_triple {l : List Char}
    (h : hasTripleNewline l = false) : collapseNewlines l = l :=
  (collapseGo_eq_self_of_no_triple l).1 h

theorem collapseGo_replicate (m : Nat) :
    ∀ k, collapseGo k (List.replicate m '\n') = emitRun (k + m) := by
  induction m with
  | zero =>
    intro k
    rw [List.replicate, collapseGo, Nat.add_zero]
  | succ n ih =>
    intro k
    rw [List.replicate, collapseGo, if_pos rfl, ih (k + 1)]
    congr 1
    omega

theorem collapseNewlines_replicate (n : Nat) (h : 3 ≤ n) :
    collapseNewlines (List.replicate n '\n') = ['\n', '\n'] := by
  rw [collapseNewlines, collapseGo_replicate n 0]
  simp only [Nat.zero_add]
  rw [emitRun, if_pos h]

/-! ## Helper lemmas: the normalizer and the orchestrator -/

theorem cleanedLines_all_blank {ls : List (List Char)}
    (h : ∀ l ∈ ls, pyStrip l = []) : cleanedLines ls = some [] := by
  induction ls with
  | nil => rfl
  | cons l ls ih =>
    have hl : pyStrip l = [] := h l (List.mem_cons_self l ls)
    simp only [cleanedLines]
    rw [if_pos hl]
    exact ih fun x hx => h x (List.mem_cons_of_mem l hx)

theorem scrapeSpellsGo_records (fetch : List Char → FetchResult)
    (baseUrl : List Char) (total : Nat) :
    ∀ rest i, (scrapeSpellsGo fetch baseUrl total i rest).1
      = rest.filterMap (scrapeSpell fetch baseUrl) := by
  intro rest
  induction rest with
  | nil => intro i; rfl
  | cons name rest ih =>
    intro i
    cases h : scrapeSpell fetch baseUrl name with
    | none => simp [scrapeSpellsGo, h, List.filterMap_cons, ih (i + 1)]
    | some r => simp [scrapeSpellsGo, h, List.filterMap_cons, ih (i + 1)]

theorem scrapeSpellsGo_trace (fetch : List Char → FetchResult)
    (baseUrl : List Char) :
    ∀ rest i total, total = i + rest.length →
      (scrapeSpellsGo fetch baseUrl total i rest).2
        = (List.intersperse [Event.sleep]
            (rest.map (itemTrace fetch baseUrl))).flatten := by
  intro rest
  induction rest with
  | nil => intro i total h; rfl
  | cons name rest ih =>
    intro i total h
    cases rest with
    | nil =>
      have hi : ¬ i < total - 1 := by
        simp only [List.length_cons, List.length_nil] at h
        omega
      cases hf : scrapeSpell fetch baseUrl name with
      | none => simp [scrapeSpellsGo, hf, hi, itemTrace]
      | some r => simp [scrapeSpellsGo, hf, hi, itemTrace]
    | cons name2 rest2 =>
      have hi : i < total - 1 := by
        simp only [List.length_cons] at h
        omega
      have ht : total = (i + 1) + (name2 :: rest2).length := by
        simp only [List.length_cons] at h ⊢
        omega
      have hrec := ih (i + 1) total ht
      have hstep : (scrapeSpellsGo fetch baseUrl total i (name :: name2 :: rest2)).2
          = Event.fetchItem name ::
              ((match scrapeSpell fetch baseUrl name with
                | some _ => [Event.save name]
                | none => ([] : List Event)) ++
               ((if i < total - 1 then [Event.sleep] else []) ++
                (scrapeSpellsGo fetch baseUrl total (i + 1) (name2 :: rest2)).2)) := by
        conv_lhs => rw [scrapeSpellsGo]
        simp [List.append_assoc]
      rw [hstep, if_pos hi, hrec]
      cases hf : scrapeSpell fetch baseUrl name with
      | none => simp [itemTrace, hf, List.intersperse]
      | some r => simp [itemTrace, hf, List.intersperse]

theorem itemTrace_sleep_not_mem (fetch : List Char → FetchResult)
    (baseUrl name : List Char) : Event.sleep ∉ itemTrace fetch baseUrl name := by
  unfold itemTrace
  cases scrapeSpell fetch baseUrl name <;> simp

theorem pacedTrace_sleep_count (fetch : List Char → FetchResult)
    (baseUrl : List Char) : ∀ names : List (List Char),
    (pacedTrace fetch baseUrl names).count Event.sleep = names.length - 1 := by
  intro names
  induction names with
  | nil => rfl
  | cons name rest ih =>
    cases rest with
    | nil =>
      simp only [pacedTrace, List.map_cons, List.map_nil, List.intersperse_single,
        List.flatten_cons, List.flatten_nil, List.append_nil, List.length_cons,
        List.length_nil]
      rw [List.count_eq_zero.mpr (itemTrace_sleep_not_mem fetch baseUrl name)]
    | cons name2 rest2 =>
      have h1 : pacedTrace fetch baseUrl (name :: name2 :: rest2)
          = itemTrace fetch baseUrl name ++ [Event.sleep]
            ++ pacedTrace fetch baseUrl (name2 :: rest2) := by
        simp [pacedTrace, List.intersperse]
      rw [h1]
      simp only [List.count_append]
      rw [List.count_eq_zero.mpr (itemTrace_sleep_not_mem fetch baseUrl name), ih]
      simp [List.count_singleton]
      omega

/-! ## Claim theorems -/

/-- C1, counterexample: on a labeled line whose text contains a second
colon, `_format` keeps only the text between the first and second colons,
not the whole text after the first colon as the claim states. -/
theorem labeled_line_extra_colon_cex :
    pyFormat "Range: 1:2".data = some "**Range:** 1\n".data ∧
    some "**Range:** 1\n".data ≠ some "**Range:** 1:2\n".data := by
  constructor <;> decide

/-- C2, counterexample: the classifier is not total.  A line starting
with `Source` but containing no colon, and a line containing
`At Higher Levels` but not the literal `At Higher Levels.`, both raise
`IndexError` (modelled as `none`). -/
theorem classifier_not_total_cex :
    pyFormat "Source".data = none ∧
    pyFormat "Lasts At Higher Levels: more".data = none := by
  constructor <;> decide

/-- C3, counterexample: the spell branch splits on single spaces (so a
double space yields an empty school token), the `Source` rule takes
precedence over the school rule, and a school line containing `level`
but no space raises. -/
theorem school_line_cex :
    pyFormat "3rd-level  evocation".data
      = some "**Type:** Spell\n**Level:** 3rd-level\n**School:** \n\n".data ∧
    some "**Type:** Spell\n**Level:** 3rd-level\n**School:** \n\n".data
      ≠ some "**Type:** Spell\n**Level:** 3rd-level\n**School:** Evocation\n\n".data ∧
    pyFormat "Source: evocation".data = some "**Source:** evocation\n\n".data ∧
    pyFormat "3rd-levelevocation".data = none := by
  refine ⟨by decide, by decide, by decide, by decide⟩

/-- C4: the orchestrator returns exactly the successfully scraped
records, in input order; failed items are skipped and do not disturb the
others. -/
theorem orchestrator_returns_successes (fetch : List Char → FetchResult)
    (baseUrl : List Char) (names : List (List Char)) :
    (scrapeSpells fetch baseUrl names).1
      = names.filterMap (scrapeSpell fetch baseUrl) :=
  scrapeSpellsGo_records fetch baseUrl names.length names 0

/-- C5: the normalizer output — and hence the `content` of every record —
never contains three consecutive newline characters, and every run of
three or more newlines is collapsed to exactly two. -/
theorem normalizer_no_triple_newlines :
    (∀ raw out, cleanContent raw = some out → hasTripleNewline out = false) ∧
    (∀ (fetch : List Char → FetchResult) (baseUrl name : List Char) r,
        scrapeSpell fetch baseUrl name = some r →
        hasTripleNewline r.content = false) ∧
    (∀ n, 3 ≤ n → collapseNewlines (List.replicate n '\n') = ['\n', '\n']) := by
  have hout : ∀ raw out, cleanContent raw = some out →
      hasTripleNewline out = false := by
    intro raw out h
    unfold cleanContent at h
    cases hc : cleanedLines (pySplitChar '\n' raw) with
    | none => rw [hc] at h; cases h
    | some fs =>
      rw [hc] at h
      simp only [Option.map_some'] at h
      rw [← Option.some.inj h]
      exact collapseNewlines_no_triple _
  refine ⟨hout, ?_, fun n hn => collapseNewlines_replicate n hn⟩
  intro fetch baseUrl name r h
  cases hf : fetch name with
  | failure =>
    have hnone : scrapeSpell fetch baseUrl name = none := by
      simp [scrapeSpell, hf]
    rw [hnone] at h
    cases h
  | success page =>
    cases pc : page.contentText with
    | none =>
      have hnone : scrapeSpell fetch baseUrl name = none := by
        simp [scrapeSpell, hf, pc]
      rw [hnone] at h
      cases h
    | some raw =>
      cases cc : cleanContent raw with
      | none =>
        have hnone : scrapeSpell fetch baseUrl name = none := by
          simp [scrapeSpell, hf, pc, cc]
        rw [hnone] at h
        cases h
      | some content =>
        have hsome : ∃ title, scrapeSpell fetch baseUrl name
            = some ⟨title, content, spellUrl baseUrl name⟩ := by
          refine ⟨match page.titleText with
                  | none => derivedTitle name
                  | some t => t, ?_⟩
          simp [scrapeSpell, hf, pc, cc]
        obtain ⟨title, hs⟩ := hsome
        rw [hs] at h
        rw [(Option.some.inj h).symm]
        exact hout raw content cc

/-- C5 witness. -/
theorem normalizer_no_triple_newlines_witness :
    hasTripleNewline "a\n\nb\n\n".data = false ∧
    collapseNewlines (List.replicate 5 '\n') = ['\n', '\n'] :=
  ⟨normalizer_no_triple_newlines.1 "a\n\n\n\nb".data "a\n\nb\n\n".data (by decide),
   normalizer_no_triple_newlines.2.2 5 (by decide)⟩

/-- C6: with zero or with more than one positional argument the program
prints the usage message but, contrary to spec and to the evident intent
of the message, still calls `main` afterwards (there is no early exit). -/
theorem cli_usage_then_runs_anyway :
    cliMain ["prog".data, "a.json".data, "b.json".data]
      = [CliStep.printUsage, CliStep.runMain ["a.json".data, "b.json".data]] ∧
    cliMain ["prog".data] = [CliStep.printUsage, CliStep.runMain []] := by
  constructor <;> decide

/-- C7: the orchestrator trace is the per-item blocks separated by single
pauses — `N - 1` pauses for `N` items, independent of per-item success,
and never a pause after the last item. -/
theorem orchestrator_pacing (fetch : List Char → FetchResult)
    (baseUrl : List Char) (names : List (List Char)) :
    (scrapeSpells fetch baseUrl names).2 = pacedTrace fetch baseUrl names ∧
    (scrapeSpells fetch baseUrl names).2.count Event.sleep = names.length - 1 := by
  have h := scrapeSpellsGo_trace fetch baseUrl names 0 names.length (by omega)
  refine ⟨h, ?_⟩
  show List.count Event.sleep (scrapeSpellsGo fetch baseUrl names.length 0 names).2
      = names.length - 1
  rw [h]
  exact pacedTrace_sleep_count fetch baseUrl names

/-- C8: the newline-run collapse is idempotent. -/
theorem collapse_idempotent (l : List Char) :
    collapseNewlines (collapseNewlines l) = collapseNewlines l :=
  collapseNewlines_eq_self_of_no_triple (collapseNewlines_no_triple l)

/-- C9: when the fetched page has no title element but has a content
element, extraction succeeds and the record title is the item id with
hyphens replaced by spaces, title-cased. -/
theorem missing_title_uses_derived (fetch : List Char → FetchResult)
    (baseUrl name : List Char) (page : Page) (raw content : List Char)
    (hf : fetch name = FetchResult.success page)
    (ht : page.titleText = none)
    (hc : page.contentText = some raw)
    (hcc : cleanContent raw = some content) :
    scrapeSpell fetch baseUrl name
      = some ⟨derivedTitle name, content, spellUrl baseUrl name⟩ := by
  simp only [scrapeSpell, hf, ht, hc, hcc]

/-- C9 witness. -/
theorem missing_title_uses_derived_witness :
    scrapeSpell (fun _ => FetchResult.success ⟨none, some "a".data⟩)
        "https://dnd5e.wikidot.com".data "fire-bolt".data
      = some ⟨"Fire Bolt".data, "a\n\n".data,
              "https://dnd5e.wikidot.com/spell:fire-bolt".data⟩ := by
  rw [missing_title_uses_derived (fun _ => FetchResult.success ⟨none, some "a".data⟩)
      "https://dnd5e.wikidot.com".data "fire-bolt".data ⟨none, some "a".data⟩
      "a".data "a\n\n".data rfl rfl rfl (by decide)]
  decide

/-- C10: input whose lines are all blank after stripping normalizes to
the empty string. -/
theorem normalizer_blank_input (raw : List Char)
    (h : ∀ l ∈ pySplitChar '\n' raw, pyStrip l = []) :
    cleanContent raw = some [] := by
  unfold cleanContent
  rw [cleanedLines_all_blank h]
  decide

/-- C10 witness. -/
theorem normalizer_blank_input_witness : cleanContent " \n\t \n".data = some [] :=
  normalizer_blank_input " \n\t \n".data (by decide)

theorem isPrefixOf_false_of_second_ne {a b c : Char} (p t : List Char)
    (h : b ≠ c) : (a :: b :: p).isPrefixOf (a :: c :: t) = false := by
  have hb : (b == c) = false := by
    simp only [beq_eq_false_iff_ne]
    exact h
  simp [List.isPrefixOf, hb]

/-- The five labeled rules of `_format`: detection prefix, emitted bold
label, trailing newline(s). -/
def labeledRules : List (List Char × List Char × List Char) :=
  [("Source".data, "**Source:** ".data, "\n\n".data),
   ("Casting Time".data, "**Casting Time:** ".data, "\n".data),
   ("Range".data, "**Range:** ".data, "\n".data),
   ("Components".data, "**Components:** ".data, "\n".data),
   ("Duration".data, "**Duration:** ".data, "\n\n".data)]

/-- C1 (amended): for a line that begins with a labeled prefix, contains
a colon, and (for the non-`Source` labels, which are checked after the
school rule) mentions no school name, the classifier output is the bold
label followed by the text strictly between the first colon and the next
colon or end of line, trimmed — not everything after the first colon. -/
theorem labeled_rule_first_colon_segment
    (r : List Char × List Char × List Char) (hr : r ∈ labeledRules)
    (pre rest : List Char)
    (hp : r.1.isPrefixOf (pre ++ ':' :: rest) = true)
    (hcol : ':' ∉ pre)
    (hsch : containsSchool (pre ++ ':' :: rest) = false) :
    pyFormat (pre ++ ':' :: rest)
      = some (r.2.1 ++ pyStrip (rest.takeWhile (fun c => !(c == ':'))) ++ r.2.2) := by
  have hmatch := pySplitChar_getElem_one ':' pre rest hcol
  simp only [labeledRules, List.mem_cons, List.not_mem_nil, or_false] at hr
  rcases hr with rfl | rfl | rfl | rfl | rfl
  · unfold pyFormat
    rw [if_pos hp, hmatch]
  · obtain ⟨t, htl⟩ := head2_of_isPrefixOf hp
    have hS : "Source".data.isPrefixOf (pre ++ ':' :: rest) = false := by
      rw [htl]
      exact isPrefixOf_false_of_head_ne _ _ (by decide)
    unfold pyFormat
    rw [if_neg (by simp [hS]), if_neg (by simp [hsch]), if_pos hp, hmatch]
  · obtain ⟨t, htl⟩ := head2_of_isPrefixOf hp
    have hS : "Source".data.isPrefixOf (pre ++ ':' :: rest) = false := by
      rw [htl]
      exact isPrefixOf_false_of_head_ne _ _ (by decide)
    have hCT : "Casting Time".data.isPrefixOf (pre ++ ':' :: rest) = false := by
      rw [htl]
      exact isPrefixOf_false_of_head_ne _ _ (by decide)
    unfold pyFormat
    rw [if_neg (by simp [hS]), if_neg (by simp [hsch]), if_neg (by simp [hCT]),
        if_pos hp, hmatch]
  · obtain ⟨t, htl⟩ := head2_of_isPrefixOf hp
    have hS : "Source".data.isPrefixOf (pre ++ ':' :: rest) = false := by
      rw [htl]
      exact isPrefixOf_false_of_head_ne _ _ (by decide)
    have hCT : "Casting Time".data.isPrefixOf (pre ++ ':' :: rest) = false := by
      rw [htl]
      exact isPrefixOf_false_of_second_ne _ _ (by decide)
    have hR : "Range".data.isPrefixOf (pre ++ ':' :: rest) = false := by
      rw [htl]
      exact isPrefixOf_false_of_head_ne _ _ (by decide)
    unfold pyFormat
    rw [if_neg (by simp [hS]), if_neg (by simp [hsch]), if_neg (by simp [hCT]),
        if_neg (by simp [hR]), if_pos hp, hmatch]
  · obtain ⟨t, htl⟩ := head2_of_isPrefixOf hp
    have hS : "Source".data.isPrefixOf (pre ++ ':' :: rest) = false := by
      rw [htl]
      exact isPrefixOf_false_of_head_ne _ _ (by decide)
    have hCT : "Casting Time".data.isPrefixOf (pre ++ ':' :: rest) = false := by
      rw [htl]
      exact isPrefixOf_false_of_head_ne _ _ (by decide)
    have hR : "Range".data.isPrefixOf (pre ++ ':' :: rest) = false := by
      rw [htl]
      exact isPrefixOf_false_of_head_ne _ _ (by decide)
    have hC : "Components".data.isPrefixOf (pre ++ ':' :: rest) = false := by
      rw [htl]
      exact isPrefixOf_false_of_head_ne _ _ (by decide)
    unfold pyFormat
    rw [if_neg (by simp [hS]), if_neg (by simp [hsch]), if_neg (by simp [hCT]),
        if_neg (by simp [hR]), if_neg (by simp [hC]), if_pos hp, hmatch]

/-- C1 witness. -/
theorem labeled_rule_first_colon_segment_witness :
    pyFormat ("Duration".data ++ ':' :: " 1 hour".data)
      = some "**Duration:** 1 hour\n\n".data := by
  rw [labeled_rule_first_colon_segment
      ("Duration".data, "**Duration:** ".data, "\n\n".data) (by decide)
      "Duration".data " 1 hour".data (by decide) (by decide) (by decide)]
  decide

/-- C3 (amended): a school line is formatted by the school rule only when
it does not begin with `Source` (whose rule runs first).  With `level`
present, `_format` splits on single space characters — not whitespace
runs — so the level token is the text before the first space and the
school token is the text between the first and second spaces (empty if
two spaces are adjacent); a `level` line with no space raises.  Without
`level`, the school token is the first whitespace-run token. -/
theorem school_line_tokens :
    (∀ a b : List Char,
        containsSchool (a ++ ' ' :: b) = true →
        "Source".data.isPrefixOf (a ++ ' ' :: b) = false →
        containsSub "level".data (a ++ ' ' :: b) = true →
        ' ' ∉ a →
        pyFormat (a ++ ' ' :: b)
          = some ("**Type:** Spell\n**Level:** ".data ++ pyStrip a ++
                  "\n**School:** ".data ++
                  pyCapitalize (pyStrip (b.takeWhile (fun c => !(c == ' ')))) ++
                  "\n\n".data)) ∧
    (∀ l : List Char,
        containsSchool l = true →
        "Source".data.isPrefixOf l = false →
        containsSub "level".data l = false →
        ∃ t, wsFirstToken l = some t ∧
          pyFormat l = some ("**Type:** Cantrip\n**School:** ".data ++
                             pyCapitalize (pyStrip t) ++ "\n\n".data)) := by
  constructor
  · intro a b hsch hsrc hlvl hsp
    unfold pyFormat
    rw [if_neg (by simp [hsrc]), if_pos hsch, if_pos hlvl,
      pySplitChar_append_cons ' ' a b hsp]
    obtain ⟨ps, hps⟩ := pySplitChar_head ' ' b
    rw [hps]
    simp only [List.getElem?_cons_zero, List.getElem?_cons_succ]
  · intro l hsch hsrc hlvl
    obtain ⟨t, ht⟩ := wsFirstToken_of_school hsch
    refine ⟨t, ht, ?_⟩
    unfold pyFormat
    rw [if_neg (by simp [hsrc]), if_pos hsch, if_neg (by simp [hlvl]), ht]

/-- C3 witness. -/
theorem school_line_tokens_witness :
    pyFormat ("3rd-level".data ++ ' ' :: "evocation".data)
      = some "**Type:** Spell\n**Level:** 3rd-level\n**School:** Evocation\n\n".data ∧
    pyFormat "Evocation cantrip".data
      = some "**Type:** Cantrip\n**School:** Evocation\n\n".data := by
  constructor
  · rw [school_line_tokens.1 "3rd-level".data "evocation".data (by decide)
        (by decide) (by decide) (by decide)]
    decide
  · obtain ⟨t, ht, he⟩ := school_line_tokens.2 "Evocation cantrip".data
      (by decide) (by decide) (by decide)
    have h2 : wsFirstToken "Evocation cantrip".data = some "Evocation".data := by
      decide
    rw [ht] at h2
    rw [he, Option.some.inj h2]
    decide

/-- The exact conditions under which `_format` raises `IndexError`,
mirroring its rule chain: a labeled line with no colon, a school+`level`
line with no space, or an `At Higher Levels` / `Spell Lists` line
without the dotted literal. -/
def formatRaises (l : List Char) : Bool :=
  if "Source".data.isPrefixOf l then !(l.contains ':')
  else if containsSchool l then
    if containsSub "level".data l then !(l.contains ' ') else false
  else if "Casting Time".data.isPrefixOf l then !(l.contains ':')
  else if "Range".data.isPrefixOf l then !(l.contains ':')
  else if "Components".data.isPrefixOf l then !(l.contains ':')
  else if "Duration".data.isPrefixOf l then !(l.contains ':')
  else if containsSub "At Higher Levels".data l then
    !(containsSub "At Higher Levels.".data l)
  else if containsSub "Spell Lists".data l then
    !(containsSub "Spell Lists.".data l)
  else false

/-- No classifier rule matches the line. -/
def noRuleMatches (l : List Char) : Bool :=
  !("Source".data.isPrefixOf l) && !(containsSchool l) &&
  !("Casting Time".data.isPrefixOf l) && !("Range".data.isPrefixOf l) &&
  !("Components".data.isPrefixOf l) && !("Duration".data.isPrefixOf l) &&
  !(containsSub "At Higher Levels".data l) && !(containsSub "Spell Lists".data l)

/-- C2 (amended): the classifier is not total.  It raises (returns
`none`) exactly under `formatRaises` — a labeled prefix line with no
colon, a school + `level` line with no space, or a line whose first
matching rule is `At Higher Levels` / `Spell Lists` without the exact
dotted literal.  On every other line it returns a string, and a line
matching no rule falls through to the passthrough format (the line
followed by a blank line). -/
theorem classifier_totality (l : List Char) :
    ((pyFormat l).isNone = formatRaises l) ∧
    (noRuleMatches l = true → pyFormat l = some (l ++ "\n\n".data)) := by
  constructor
  · unfold pyFormat formatRaises
    by_cases h1 : "Source".data.isPrefixOf l = true
    · rw [if_pos h1, if_pos h1]
      conv_rhs => rw [← pySplitChar_getElem_one_isNone ':' l]
      cases hq : (pySplitChar ':' l)[1]? <;> rfl
    · rw [if_neg h1, if_neg h1]
      by_cases h2 : containsSchool l = true
      · rw [if_pos h2, if_pos h2]
        by_cases h3 : containsSub "level".data l = true
        · rw [if_pos h3, if_pos h3]
          obtain ⟨ps, hps⟩ := pySplitChar_head ' ' l
          have hl := pySplitChar_getElem_one_isNone ' ' l
          rw [hps] at hl
          simp only [List.getElem?_cons_succ] at hl
          rw [hps]
          simp only [List.getElem?_cons_zero, List.getElem?_cons_succ]
          conv_rhs => rw [← hl]
          cases hq : ps[0]? <;> rfl
        · rw [if_neg h3, if_neg h3]
          obtain ⟨t, ht⟩ := wsFirstToken_of_school h2
          rw [ht]
          rfl
      · rw [if_neg h2, if_neg h2]
        by_cases h4 : "Casting Time".data.isPrefixOf l = true
        · rw [if_pos h4, if_pos h4]
          conv_rhs => rw [← pySplitChar_getElem_one_isNone ':' l]
          cases hq : (pySplitChar ':' l)[1]? <;> rfl
        · rw [if_neg h4, if_neg h4]
          by_cases h5 : "Range".data.isPrefixOf l = true
          · rw [if_pos h5, if_pos h5]
            conv_rhs => rw [← pySplitChar_getElem_one_isNone ':' l]
            cases hq : (pySplitChar ':' l)[1]? <;> rfl
          · rw [if_neg h5, if_neg h5]
            by_cases h6 : "Components".data.isPrefixOf l = true
            · rw [if_pos h6, if_pos h6]
              conv_rhs => rw [← pySplitChar_getElem_one_isNone ':' l]
              cases hq : (pySplitChar ':' l)[1]? <;> rfl
            · rw [if_neg h6, if_neg h6]
              by_cases h7 : "Duration".data.isPrefixOf l = true
              · rw [if_pos h7, if_pos h7]
                conv_rhs => rw [← pySplitChar_getElem_one_isNone ':' l]
                cases hq : (pySplitChar ':' l)[1]? <;> rfl
              · rw [if_neg h7, if_neg h7]
                by_cases h8 : containsSub "At Higher Levels".data l = true
                · rw [if_pos h8, if_pos h8]
                  conv_rhs =>
                    rw [← pySplitStr_getElem_one_isNone "At Higher Levels.".data l
                      (by decide)]
                  cases hq : (pySplitStr "At Higher Levels.".data l)[1]? <;> rfl
                · rw [if_neg h8, if_neg h8]
                  by_cases h9 : containsSub "Spell Lists".data l = true
                  · rw [if_pos h9, if_pos h9]
                    conv_rhs =>
                      rw [← pySplitStr_getElem_one_isNone "Spell Lists.".data l
                        (by decide)]
                    cases hq : (pySplitStr "Spell Lists.".data l)[1]? <;> rfl
                  · rw [if_neg h9, if_neg h9]
                    rfl
  · intro hn
    unfold noRuleMatches at hn
    simp only [Bool.and_eq_true, Bool.not_eq_true'] at hn
    obtain ⟨⟨⟨⟨⟨⟨⟨n1, n2⟩, n3⟩, n4⟩, n5⟩, n6⟩, n7⟩, n8⟩ := hn
    unfold pyFormat
    rw [if_neg (by simp [n1]), if_neg (by simp [n2]), if_neg (by simp [n3]),
        if_neg (by simp [n4]), if_neg (by simp [n5]), if_neg (by simp [n6]),
        if_neg (by simp [n7]), if_neg (by simp [n8])]

/-- C2 witness. -/
theorem classifier_totality_witness :
    pyFormat "Hello world.".data = some ("Hello world.".data ++ "\n\n".data) :=
  (classifier_totality "Hello world.".data).2 (by decide)
